import Mathlib

/-!
Verification of the OrcaSong core: the event-record extractor
(`orcasong/file_to_hits.py`) and the dataset split planner
(`orcasong/tools/make_data_split.py`), shallowly embedded in Lean.
Numeric (float) values are modelled as rationals; the NaN sentinel of the
floating-point arithmetic is modelled by an explicit `PyFloat` sum type.
Fallible computations (Python exceptions) are modelled with `Option`.
-/

set_option maxRecDepth 4000

namespace OrcaSong

universe u
variable {α : Type u}

/-! ### Embedding of the chunk partitioner, function split of make_data_split.py

Here `split(a, n)` computes `k, m = divmod(len(a), n)` and yields the slices
`a[i*k + min(i, m) : (i+1)*k + min(i+1, m)]` for `i in range(n)`.
`divmod` uses floor division (`Int.fdiv` / `Int.fmod`), `range n` is empty
for `n ≤ 0`, and `divmod(_, 0)` raises `ZeroDivisionError` (the `none`
case). -/

/-- Python slice index normalisation: a negative index counts from the end
of the list; clamping to the list is performed by `take`/`drop` themselves. -/
def pyIdx (len : Nat) (i : Int) : Nat :=
  if i < 0 then (i + len).toNat else i.toNat

/-- Python slice `a[s:e]`. -/
def pySlice (a : List α) (s e : Int) : List α :=
  (a.take (pyIdx a.length e)).drop (pyIdx a.length s)

/-- Function `split` from `make_data_split.py`: `k, m = divmod(len(a), n)` followed by
`[a[i*k + min(i, m):(i+1)*k + min(i+1, m)] for i in range(n)]`.
`n = 0` raises `ZeroDivisionError` in `divmod`. -/
def split (a : List α) (n : Int) : Option (List (List α)) :=
  if n = 0 then none
  else
    let k : Int := Int.fdiv a.length n
    let m : Int := Int.fmod a.length n
    some ((List.range n.toNat).map (fun (i : Nat) =>
      pySlice a ((i : Int) * k + min (i : Int) m) (((i : Int) + 1) * k + min ((i : Int) + 1) m)))

/-! ### Embedding of the event record extractor, file_to_hits.py

Float values are modelled as rationals.  Results of floating computations
that may be the IEEE NaN sentinel (the mean of an empty array) are modelled
by `PyFloat`; Python exceptions are modelled by `Option`. -/

/-- A value of the float dtype: either a rational number or the NaN
sentinel that `np.mean` produces on an empty array. -/
inductive PyFloat where
  | nan : PyFloat
  | val : ℚ → PyFloat
deriving DecidableEq

/-- Model of `np.mean` on a 1-d array: NaN on an empty array (with only a runtime
warning, no exception), otherwise the arithmetic mean. -/
def npMean (xs : List ℚ) : PyFloat :=
  if xs = [] then PyFloat.nan else PyFloat.val (xs.sum / (xs.length : ℚ))

/-- Float subtraction: NaN is absorbing. -/
def pfSub : PyFloat → PyFloat → PyFloat
  | PyFloat.val x, PyFloat.val y => PyFloat.val (x - y)
  | _, _ => PyFloat.nan

/-- Model of `np.average(xs, weights=ws)`: raises `ZeroDivisionError` when the
weights sum to zero, else the weighted mean. -/
def npAverage (xs ws : List ℚ) : Option ℚ :=
  if ws.sum = 0 then none
  else some (((xs.zip ws).map (fun p => p.1 * p.2)).sum / ws.sum)

/-- Boolean-mask selection `xs[mask == 1]` over two parallel arrays. -/
def maskEqOne (xs mask : List ℚ) : List ℚ :=
  ((xs.zip mask).filter (fun p => decide (p.2 = 1))).map Prod.fst

/-- One row of a hit table: `pos_x/pos_y/pos_z`, `time`, `triggered`,
`channel_id`. -/
structure Hit where
  pos_x : ℚ
  pos_y : ℚ
  pos_z : ℚ
  time : ℚ
  triggered : ℚ
  channel_id : ℚ
deriving DecidableEq

/-- A hit table (`Hits` or `McHits` branch): its rows plus whether the
calibrated spatial coordinates are already present in the dtype
(`'pos_x' in table.dtype.names`). -/
structure HitTable where
  rows : List Hit
  hasPosX : Bool
deriving DecidableEq

/-- One row of the `McTracks` truth-track table. -/
structure McTrack where
  type : ℚ
  is_cc : ℚ
  bjorkeny : ℚ
  time : ℚ
  energy : ℚ
  dir_x : ℚ
  dir_y : ℚ
  dir_z : ℚ
  pos_x : ℚ
  pos_y : ℚ
  pos_z : ℚ
deriving DecidableEq

/-- The decoded blob of one event: the `Hits`/`McHits` hit tables, the
`McTracks` truth-track table, `EventInfo.event_id[0]`, and the run id
sources (`Header.start_run.run_id` when `Header` is present, else
`RawHeader[0][0]`). -/
structure EventBlob where
  hits : HitTable
  mc_hits : HitTable
  mcTracks : List McTrack
  event_id : ℚ
  header_run_id : Option ℚ
  raw_header_run_id : ℚ
deriving DecidableEq

/-- The event blob is a string-keyed mapping (an `OrderedDict`); looking it
up with an integer key, as `event_blob[4]` does in the muon branch of
`get_tracks`, never finds an entry (`KeyError`). -/
def EventBlob.getIntKey (_ : EventBlob) (_ : Nat) : Option EventBlob := none

/-- The `data_cuts` dict as read by `get_hits`; only the `'triggered'` key
is consulted there. -/
structure DataCuts where
  triggered : Bool
deriving DecidableEq

/-- Function `get_hits` from `file_to_hits.py`: select `Hits` or `McHits`, apply the
geometry calibration when `'pos_x'` is not among `event_blob['Hits']`'s
dtype names, filter to triggered hits when requested, and assemble the
per-hit rows `[pos_x, pos_y, pos_z, time, triggered]`, with `channel_id`
appended when `do4d[0] is True and do4d[1] == 'channel_id' or
do4d[1] == 'xzt-c'` (Python precedence: the `and` binds tighter). -/
def get_hits (event_blob : EventBlob) (geo : HitTable → HitTable)
    (do_mc_hits : Bool) (data_cuts : DataCuts) (do4d : Bool × String) :
    List (List ℚ) :=
  let hits := if do_mc_hits = false then event_blob.hits else event_blob.mc_hits
  let hits := if event_blob.hits.hasPosX = false then geo hits else hits
  let hits := if data_cuts.triggered = true then
      { hits with rows := hits.rows.filter (fun h => decide (h.triggered ≠ 0)) }
    else hits
  let event_hits := hits.rows.map (fun h =>
    [h.pos_x, h.pos_y, h.pos_z, h.time, h.triggered])
  if (do4d.1 = true ∧ do4d.2 = "channel_id") ∨ do4d.2 = "xzt-c" then
    hits.rows.map (fun h =>
      [h.pos_x, h.pos_y, h.pos_z, h.time, h.triggered, h.channel_id])
  else event_hits

/-- Stage 1 of `get_hits`: the selected hit source. -/
def select_hits (event_blob : EventBlob) (do_mc_hits : Bool) : HitTable :=
  if do_mc_hits = false then event_blob.hits else event_blob.mc_hits

/-- Stage 3 of `get_hits`: the triggered-only row filter. -/
def apply_trigger_cut (data_cuts : DataCuts) (t : HitTable) : HitTable :=
  if data_cuts.triggered = true then
    { t with rows := t.rows.filter (fun h => decide (h.triggered ≠ 0)) }
  else t

/-- Stages 4–5 of `get_hits`: row assembly with the optional sixth column. -/
def assemble_matrix (t : HitTable) (do4d : Bool × String) : List (List ℚ) :=
  if (do4d.1 = true ∧ do4d.2 = "channel_id") ∨ do4d.2 = "xzt-c" then
    t.rows.map (fun h =>
      [h.pos_x, h.pos_y, h.pos_z, h.time, h.triggered, h.channel_id])
  else t.rows.map (fun h => [h.pos_x, h.pos_y, h.pos_z, h.time, h.triggered])

/-- The hit assembler as claim C5 words it: the calibration check inspects
the SELECTED hit table (simulated hits when the flag is set) rather than the
combined `Hits` stream.  Stated from the claim, for comparison with
`get_hits`. -/
def get_hits_claim (event_blob : EventBlob) (geo : HitTable → HitTable)
    (do_mc_hits : Bool) (data_cuts : DataCuts) (do4d : Bool × String) :
    List (List ℚ) :=
  let hits := if do_mc_hits = false then event_blob.hits else event_blob.mc_hits
  let hits := if hits.hasPosX = false then geo hits else hits
  let hits := if data_cuts.triggered = true then
      { hits with rows := hits.rows.filter (fun h => decide (h.triggered ≠ 0)) }
    else hits
  let event_hits := hits.rows.map (fun h =>
    [h.pos_x, h.pos_y, h.pos_z, h.time, h.triggered])
  if (do4d.1 = true ∧ do4d.2 = "channel_id") ∨ do4d.2 = "xzt-c" then
    hits.rows.map (fun h =>
      [h.pos_x, h.pos_y, h.pos_z, h.time, h.triggered, h.channel_id])
  else event_hits

/-- Function `get_primary_track_index`: `np.where(bjorken_y != 0.0)[0][0]`, i.e. the
first index of `McTracks` whose `bjorkeny` is nonzero; indexing the empty
match set raises `IndexError` (the `none` case). -/
def get_primary_track_index (event_blob : EventBlob) : Option Nat :=
  event_blob.mcTracks.findIdx? (fun t => decide (t.bjorkeny ≠ 0))

/-- Function `get_time_residual_nu_interaction_mean_triggered_hits`: the mean time of
the hits with `triggered == 1`, minus the interaction time.  NaN when no hit
is triggered. -/
def get_time_residual_nu_interaction_mean_triggered_hits
    (time_interaction : ℚ) (hits_time : List ℚ) (triggered : List ℚ) :
    PyFloat :=
  let hits_time_triggered := maskEqOne hits_time triggered
  let t_mean_triggered := npMean hits_time_triggered
  pfSub t_mean_triggered (PyFloat.val time_interaction)

/-- Column `j` of the 2-d hit matrix (`event_hits[:, j]`). -/
def matrixCol (m : List (List ℚ)) (j : Nat) : List ℚ :=
  m.map (fun r => r.getD j 0)

/-- Run id resolution in `get_tracks`: from `Header` when present, else from
`RawHeader` (the `float32` re-cast is dropped in this rational model). -/
def get_run_id (event_blob : EventBlob) : ℚ :=
  match event_blob.header_run_id with
  | some r => r
  | none => event_blob.raw_header_run_id

/-- Function `get_tracks` from `file_to_hits.py`.  The `none` cases model the Python
exceptions: `IndexError` on missing track rows or on an empty
`np.where` match, `KeyError` on `event_blob[4]`, `ZeroDivisionError` in
`np.average` on zero weights, and `ValueError` on an unknown
`file_particle_type`. -/
def get_tracks (event_blob : EventBlob) (file_particle_type : String)
    (event_hits : List (List ℚ)) (prod_ident : Option ℚ) :
    Option (List PyFloat) :=
  let event_id := event_blob.event_id
  let run_id := get_run_id event_blob
  let track? : Option (List PyFloat) :=
    if file_particle_type = "undefined" then
      some [PyFloat.val event_id, PyFloat.val run_id, PyFloat.val 0]
    else if file_particle_type = "muon" then
      match event_blob.mcTracks.get? 1 with
      | none => none
      | some t1 =>
        let n_muons : ℚ := (event_blob.mcTracks.length : ℚ) - 1
        let energy := (event_blob.mcTracks.map McTrack.energy).sum
        match EventBlob.getIntKey event_blob 4 with
        | none => none
        | some b4 =>
          let tail := event_blob.mcTracks.drop 1
          let wtail := (b4.mcTracks.drop 1).map McTrack.energy
          match npAverage (tail.map McTrack.pos_x) wtail,
                npAverage (tail.map McTrack.pos_y) wtail,
                npAverage (tail.map McTrack.pos_z) wtail with
          | some vx, some vy, some vz =>
            some [PyFloat.val event_id, PyFloat.val t1.type, PyFloat.val energy,
                  PyFloat.val t1.is_cc, PyFloat.val t1.bjorkeny,
                  PyFloat.val t1.dir_x, PyFloat.val t1.dir_y, PyFloat.val t1.dir_z,
                  PyFloat.val t1.time, PyFloat.val run_id,
                  PyFloat.val vx, PyFloat.val vy, PyFloat.val vz,
                  PyFloat.val n_muons]
          | _, _, _ => none
    else if file_particle_type = "neutrino" then
      match get_primary_track_index event_blob with
      | none => none
      | some p =>
        match event_blob.mcTracks.get? p with
        | none => none
        | some t =>
          let time_residual_vertex :=
            get_time_residual_nu_interaction_mean_triggered_hits t.time
              (matrixCol event_hits 3) (matrixCol event_hits 4)
          some [PyFloat.val event_id, PyFloat.val t.type, PyFloat.val t.energy,
                PyFloat.val t.is_cc, PyFloat.val t.bjorkeny,
                PyFloat.val t.dir_x, PyFloat.val t.dir_y, PyFloat.val t.dir_z,
                PyFloat.val t.time, PyFloat.val run_id,
                PyFloat.val t.pos_x, PyFloat.val t.pos_y, PyFloat.val t.pos_z,
                time_residual_vertex]
    else none
  match track?, prod_ident with
  | none, _ => none
  | some tr, some pid => some (tr ++ [PyFloat.val pid])
  | some tr, none => some tr

/-! ### Embedding of the inventory collector of make_data_split.py -/

/-- What the inventory loop reads from one h5 file: the row count of the
measuring dataset and the run id of its first row. -/
structure H5File where
  n_evts : Nat
  run_id : ℚ
deriving DecidableEq

/-- Function `get_number_of_evts_and_run_ids`: sums the per-file event counts and
collects the run ids, then computes the mean events per file as
`total / len(list_of_files)` — an integer `ZeroDivisionError` (the `none`
case) when the file list is empty. -/
def get_number_of_evts_and_run_ids (list_of_files : List H5File) :
    Option (Nat × ℚ × List ℚ) :=
  let total_number_of_evts := (list_of_files.map H5File.n_evts).sum
  let run_ids := list_of_files.map H5File.run_id
  if list_of_files.length = 0 then none
  else some (total_number_of_evts,
    (total_number_of_evts : ℚ) / (list_of_files.length : ℚ), run_ids)

/-! ### Concrete event data used by the closed witnesses and counterexamples -/

/-- A triggered hit. -/
def hitT : Hit := ⟨1, 2, 3, 10, 1, 7⟩

/-- An untriggered hit. -/
def hitU : Hit := ⟨4, 5, 6, 20, 0, 8⟩

/-- The empty sentinel track (all fields zero, as the muon files carry at
index 0). -/
def trkZero : McTrack := ⟨0, 0, 0, 0, 0, 0, 0, 0, 0, 0, 0⟩

/-- A primary neutrino track with nonzero `bjorkeny`. -/
def trkNu : McTrack := ⟨14, 1, 1, 5, 100, 1, 0, 0, 20, 30, 40⟩

/-- A muon track. -/
def trkMu1 : McTrack := ⟨5, 1, 0, 7, 10, 1, 0, 0, 1, 2, 3⟩

/-- A second muon track. -/
def trkMu2 : McTrack := ⟨5, 1, 0, 7, 30, 1, 0, 0, 4, 5, 6⟩

/-- A calibrated hit table with one triggered and one untriggered hit. -/
def tableCal : HitTable := ⟨[hitT, hitU], true⟩

/-- A neutrino event blob: sentinel track then the primary. -/
def blobNu : EventBlob := ⟨tableCal, tableCal, [trkZero, trkNu], 3, some 42, 42⟩

/-- A neutrino event blob whose `McTracks` rows all have `bjorkeny = 0`. -/
def blobNuNoPrimary : EventBlob :=
  ⟨tableCal, tableCal, [trkZero, trkZero], 3, some 42, 42⟩

/-- A muon event blob with a sentinel and two muons. -/
def blobMuon : EventBlob := ⟨tableCal, tableCal, [trkZero, trkMu1, trkMu2], 7, some 42, 42⟩

/-- A blob whose combined `Hits` table is calibrated while the
simulated-hits table is not. -/
def blobMixed : EventBlob := ⟨⟨[hitT], true⟩, ⟨[hitU], false⟩, [], 0, some 0, 0⟩

/-- A calibration service that marks every row it touches by setting
`pos_x := 999`. -/
def geoMark : HitTable → HitTable :=
  fun t => ⟨t.rows.map (fun h => { h with pos_x := 999 }), true⟩

theorem pyIdx_ofNat (len i : Nat) : pyIdx len (i : Int) = i := by
  simp [pyIdx]

theorem pySlice_ofNat (a : List α) (s e : Nat) :
    pySlice a (s : Int) (e : Int) = (a.take e).drop s := by
  simp [pySlice, pyIdx_ofNat]

/-- For `n ≥ 1` the generic integer arithmetic of `split` collapses to the
natural-number quotient and remainder. -/
theorem split_pos_eq (a : List α) (n : Int) (h : 1 ≤ n) :
    split a n = some ((List.range n.toNat).map (fun i =>
      (a.take ((i + 1) * (a.length / n.toNat) + min (i + 1) (a.length % n.toNat))).drop
        (i * (a.length / n.toNat) + min i (a.length % n.toNat)))) := by
  have hn0 : n ≠ 0 := by omega
  have hnn : (n.toNat : Int) = n := Int.toNat_of_nonneg (by omega)
  simp only [split, if_neg hn0]
  congr 1
  apply List.map_congr_left
  intro i _
  have hk : Int.fdiv (a.length : Int) n = ((a.length / n.toNat : Nat) : Int) := by
    rw [Int.fdiv_eq_ediv _ (by omega)]
    rw [← hnn, Int.natCast_div]
    simp
  have hm : Int.fmod (a.length : Int) n = ((a.length % n.toNat : Nat) : Int) := by
    rw [Int.fmod_eq_emod _ (by omega)]
    rw [← hnn, Int.natCast_mod]
    simp
  rw [hk, hm]
  have h1 : ((i : Int) * ((a.length / n.toNat : Nat) : Int) +
      min (i : Int) ((a.length % n.toNat : Nat) : Int)) =
      ((i * (a.length / n.toNat) + min i (a.length % n.toNat) : Nat) : Int) := by
    push_cast
    rfl
  have h2 : (((i : Int) + 1) * ((a.length / n.toNat : Nat) : Int) +
      min ((i : Int) + 1) ((a.length % n.toNat : Nat) : Int)) =
      (((i + 1) * (a.length / n.toNat) + min (i + 1) (a.length % n.toNat) : Nat) : Int) := by
    push_cast
    rfl
  rw [h1, h2, pySlice_ofNat]

/-- Gluing adjacent slices of the same list. -/
theorem slice_glue (b : List α) (s e1 e2 : Nat) (h1 : s ≤ e1) (h2 : e1 ≤ e2) :
    (b.take e1).drop s ++ (b.take e2).drop e1 = (b.take e2).drop s := by
  have htt : b.take e1 = (b.take e2).take e1 := by
    rw [List.take_take, min_eq_left h2]
  rw [htt]
  set c := b.take e2 with hc
  by_cases hs : s ≤ c.length
  · conv_rhs => rw [← List.take_append_drop e1 c]
    rw [List.drop_append_eq_append_drop]
    have hlen : (c.take e1).length = min e1 c.length := List.length_take _ _
    have : s - (c.take e1).length = 0 := by
      rw [hlen]; omega
    rw [this, List.drop_zero]
  · have hc1 : c.drop s = [] := List.drop_eq_nil_of_le (by omega)
    have hc2 : (c.take e1).drop s = [] := by
      apply List.drop_eq_nil_of_le
      have := List.length_take e1 c
      omega
    have hc3 : c.drop e1 = [] := List.drop_eq_nil_of_le (by omega)
    rw [hc1, hc2, hc3]
    rfl

/-- Concatenating the consecutive slices cut at a monotone offset function. -/
theorem join_slices (a : List α) (f : Nat → Nat) (hf0 : f 0 = 0) :
    ∀ n, (∀ i, i < n → f i ≤ f (i + 1)) →
      ((List.range n).map (fun i => (a.take (f (i + 1))).drop (f i))).flatten
        = (a.take (f n)).drop (f 0) := by
  intro n
  induction n with
  | zero =>
    intro _
    simp only [List.range_zero, List.map_nil, List.flatten_nil]
    have : (a.take (f 0)).length ≤ f 0 := by
      have := List.length_take (f 0) a
      omega
    rw [List.drop_eq_nil_of_le this]
  | succ n ih =>
    intro hmono
    have hmono' : ∀ i, i < n → f i ≤ f (i + 1) := fun i hi => hmono i (by omega)
    have h0n : f 0 ≤ f n := by
      clear ih
      induction n with
      | zero => exact le_refl _
      | succ k ihk =>
        have h1 : f 0 ≤ f k := ihk (fun i hi => hmono i (by omega))
          (fun i hi => hmono' i (by omega))
        exact le_trans h1 (hmono k (by omega))
    rw [List.range_succ, List.map_append, List.flatten_append]
    rw [ih hmono']
    simp only [List.map_cons, List.map_nil, List.flatten_cons, List.flatten_nil, List.append_nil]
    exact slice_glue a (f 0) (f n) (f (n + 1)) h0n (hmono n (by omega))

/-- Length of the `i`-th chunk that `split` cuts, for `i < nN`. -/
theorem chunk_len (len nN i : Nat) (hn : 1 ≤ nN) (hi : i < nN) :
    min ((i + 1) * (len / nN) + min (i + 1) (len % nN)) len -
      (i * (len / nN) + min i (len % nN)) =
      if i < len % nN then len / nN + 1 else len / nN := by
  have hkm : nN * (len / nN) + len % nN = len := Nat.div_add_mod len nN
  have hm : len % nN < nN := Nat.mod_lt _ (by omega)
  generalize hgq : len / nN = q at *
  generalize hgr : len % nN = r at *
  have h2 : (i + 1) * q = i * q + q := Nat.succ_mul i q
  have h1 : (i + 1) * q <= nN * q := Nat.mul_le_mul_right _ (by omega)
  have hle : (i + 1) * q + min (i + 1) r <= len := by
    have hs : min (i + 1) r <= r := min_le_right _ _
    omega
  rw [min_eq_left hle]
  by_cases hc : i < r
  . rw [if_pos hc, min_eq_left (by omega : i + 1 <= r), min_eq_left (by omega : i <= r)]
    omega
  . rw [if_neg hc, min_eq_right (by omega : r <= i + 1), min_eq_right (by omega : r <= i)]
    omega

/-- The chunk offsets of `split` are monotone and exhaust the list. -/
theorem chunk_offset_mono (len nN : Nat) (i : Nat) :
    i * (len / nN) + min i (len % nN) ≤ (i + 1) * (len / nN) + min (i + 1) (len % nN) := by
  generalize hgq : len / nN = q at *
  generalize hgr : len % nN = r at *
  have h2 : (i + 1) * q = i * q + q := Nat.succ_mul i q
  have hs : min i r <= min (i + 1) r := min_le_min (by omega) (le_refl r)
  generalize min i r = s1 at *
  generalize min (i + 1) r = s2 at *
  omega

theorem chunk_offset_last (len nN : Nat) (hn : 1 ≤ nN) :
    nN * (len / nN) + min nN (len % nN) = len := by
  have hkm : nN * (len / nN) + len % nN = len := Nat.div_add_mod len nN
  have hm : len % nN < nN := Nat.mod_lt _ (by omega)
  generalize hgq : len / nN = q at *
  generalize hgr : len % nN = r at *
  rw [min_eq_right (by omega : r <= nN)]
  omega

/-- Full behaviour of `split` for a positive chunk count: `n.toNat` chunks,
the first `len % n` of size `len / n + 1`, the rest of size `len / n`, whose
in-order concatenation is the input list. -/
theorem split_pos_spec (a : List α) (n : Int) (h : 1 ≤ n) :
    ∃ cs, split a n = some cs ∧
      cs.length = n.toNat ∧
      cs.map List.length = (List.range n.toNat).map
        (fun i => if i < a.length % n.toNat then a.length / n.toNat + 1
                  else a.length / n.toNat) ∧
      cs.flatten = a := by
  have hn1 : 1 ≤ n.toNat := by omega
  refine ⟨_, split_pos_eq a n h, ?_, ?_, ?_⟩
  · rw [List.length_map, List.length_range]
  · rw [List.map_map]
    apply List.map_congr_left
    intro i hi
    rw [List.mem_range] at hi
    simp only [Function.comp]
    rw [List.length_drop, List.length_take]
    exact chunk_len a.length n.toNat i hn1 hi
  · have hjoin := join_slices a
      (fun i => i * (a.length / n.toNat) + min i (a.length % n.toNat))
      (by simp) n.toNat
      (fun i _ => chunk_offset_mono a.length n.toNat i)
    simp only at hjoin
    rw [hjoin, chunk_offset_last a.length n.toNat hn1]
    simp

/-- C1: for every list `a` and chunk count `N ≥ 1`, `split` computes
`k, m = divmod(len(a), N)` and returns `N` contiguous chunks in input order,
the first `m` of size `k + 1` and the remaining `N - m` of size `k`;
concatenating the chunks in order reconstructs `a`, chunk sizes differ by at
most 1, and the chunk sizes sum to `len(a)`. -/
theorem split_balanced_partition (a : List α) (n : Int) (h : 1 ≤ n) :
    ∃ cs, split a n = some cs ∧
      cs.length = n.toNat ∧
      cs.map List.length = (List.range n.toNat).map
        (fun i => if i < a.length % n.toNat then a.length / n.toNat + 1
                  else a.length / n.toNat) ∧
      cs.flatten = a ∧
      (∀ c1, c1 ∈ cs → ∀ c2, c2 ∈ cs → c1.length ≤ c2.length + 1) ∧
      (cs.map List.length).sum = a.length := by
  obtain ⟨cs, hcs, hlen, hsizes, hflat⟩ := split_pos_spec a n h
  refine ⟨cs, hcs, hlen, hsizes, hflat, ?_, ?_⟩
  · have hrange : ∀ c, c ∈ cs →
        a.length / n.toNat ≤ c.length ∧ c.length ≤ a.length / n.toNat + 1 := by
      intro c hc
      have hmem : c.length ∈ cs.map List.length := List.mem_map_of_mem _ hc
      rw [hsizes] at hmem
      obtain ⟨i, _, hival⟩ := List.mem_map.mp hmem
      by_cases hcase : i < a.length % n.toNat
      · rw [if_pos hcase] at hival
        omega
      · rw [if_neg hcase] at hival
        omega
    intro c1 hc1 c2 hc2
    have b1 := hrange c1 hc1
    have b2 := hrange c2 hc2
    omega
  · have := List.length_flatten cs
    rw [hflat] at this
    omega

/-- Closed instance of `split_balanced_partition` at `a = [0,1,2,3,4]`, `n = 3`:
`divmod(5, 3) = (1, 2)`, chunk sizes `[2, 2, 1]`. -/
theorem split_balanced_partition_witness :
    ∃ cs, split ([0, 1, 2, 3, 4] : List Nat) 3 = some cs ∧
      cs.length = 3 ∧
      cs.map List.length = (List.range 3).map (fun i => if i < 2 then 2 else 1) ∧
      cs.flatten = [0, 1, 2, 3, 4] ∧
      (∀ c1, c1 ∈ cs → ∀ c2, c2 ∈ cs → c1.length ≤ c2.length + 1) ∧
      (cs.map List.length).sum = 5 :=
  split_balanced_partition [0, 1, 2, 3, 4] 3 (by norm_num)

/-- C9: for every list `a` and chunk count `n` exceeding `len(a)`, `split`
still returns exactly `n` chunks: the first `len(a)` chunks are singletons,
the remaining `n - len(a)` chunks are empty, and the concatenation is `a`. -/
theorem split_surplus_chunks (a : List α) (n : Int) (h1 : 1 ≤ n)
    (h2 : (a.length : Int) < n) :
    ∃ cs, split a n = some cs ∧
      cs.length = n.toNat ∧
      cs.map List.length = (List.range n.toNat).map
        (fun i => if i < a.length then 1 else 0) ∧
      cs.flatten = a := by
  have hlt : a.length < n.toNat := by omega
  have hd : a.length / n.toNat = 0 := Nat.div_eq_of_lt hlt
  have hm : a.length % n.toNat = a.length := Nat.mod_eq_of_lt hlt
  obtain ⟨cs, hcs, hlen, hsizes, hflat⟩ := split_pos_spec a n h1
  rw [hd, hm] at hsizes
  simp only [Nat.zero_add] at hsizes
  exact ⟨cs, hcs, hlen, hsizes, hflat⟩

/-- Closed instance of `split_surplus_chunks` at `a = [10, 20]`, `n = 5`. -/
theorem split_surplus_chunks_witness :
    ∃ cs, split ([10, 20] : List Nat) 5 = some cs ∧
      cs.length = 5 ∧
      cs.map List.length = (List.range 5).map (fun i => if i < 2 then 1 else 0) ∧
      cs.flatten = [10, 20] :=
  split_surplus_chunks [10, 20] 5 (by norm_num) (by norm_num)

/-- The claim that every chunk count `N ≤ 0` fails is refuted at `N = -1`:
`divmod` is total on negative divisors and `range(-1)` is empty, so `split`
returns an empty chunk list instead of raising. -/
theorem split_negative_count_counterexample :
    split ([0] : List Nat) (-1) = some [] := by decide

/-- C3 (amended): requesting `N = 0` chunks fails with a `ZeroDivisionError`
before any chunk of the file list is produced, but a negative chunk count
does not fail: `split` then returns an empty list of chunks. -/
theorem split_nonpositive_count (a : List α) :
    split a 0 = none ∧ ∀ n : Int, n < 0 → split a n = some [] := by
  constructor
  · simp [split]
  · intro n hn
    have h0 : n ≠ 0 := by omega
    have ht : n.toNat = 0 := by omega
    simp [split, h0, ht]

/-- Closed instance of `split_nonpositive_count` at `[1, 2]`, exercising both
the zero and the negative chunk count. -/
theorem split_nonpositive_count_witness :
    split ([1, 2] : List Nat) 0 = none ∧ split ([1, 2] : List Nat) (-2) = some [] :=
  ⟨(split_nonpositive_count [1, 2]).1,
   (split_nonpositive_count [1, 2]).2 (-2) (by norm_num)⟩

/-- Mapping each element to a list of a fixed length gives a constant
length column count. -/
theorem map_length_const {β : Type u} (l : List β) (f : β → List ℚ) (c : Nat)
    (hf : ∀ x, (f x).length = c) :
    (l.map f).map List.length = List.replicate (l.map f).length c := by
  induction l with
  | nil => rfl
  | cons x xs ih =>
    simp only [List.map_cons, List.length_cons, List.replicate_succ, hf x]
    exact congrArg (List.cons c) ih

/-- C2: for every neutrino event the primary-track index chosen by
`get_primary_track_index` is the lowest index whose `bjorkeny` entry is
nonzero — so the selected track always has `bjorkeny ≠ 0` — and when every
row of the truth-track table has `bjorkeny = 0`, `get_tracks` fails
(`IndexError` on the empty `np.where` match) instead of returning a
vector. -/
theorem neutrino_primary_lowest_nonzero_bjorkeny
    (event_blob : EventBlob) (event_hits : List (List ℚ))
    (prod_ident : Option ℚ) :
    (∀ p, get_primary_track_index event_blob = some p →
      ∃ hp : p < event_blob.mcTracks.length,
        (event_blob.mcTracks.get ⟨p, hp⟩).bjorkeny ≠ 0 ∧
        ∀ j, (hj : j < event_blob.mcTracks.length) → j < p →
          (event_blob.mcTracks.get ⟨j, hj⟩).bjorkeny = 0) ∧
    ((∀ t ∈ event_blob.mcTracks, t.bjorkeny = 0) →
      get_tracks event_blob ("neutrino") event_hits prod_ident = none) := by
  constructor
  · intro p hp
    rw [get_primary_track_index, List.findIdx?_eq_some_iff_getElem] at hp
    obtain ⟨hlt, hpx, hprev⟩ := hp
    refine ⟨hlt, ?_, ?_⟩
    · simpa using hpx
    · intro j hj hjp
      have := hprev j hjp
      simpa using this
  · intro hall
    have hnone : get_primary_track_index event_blob = none := by
      rw [get_primary_track_index, List.findIdx?_eq_none_iff]
      intro x hx
      simp [hall x hx]
    simp [get_tracks, hnone]

/-- Closed instance of `neutrino_primary_lowest_nonzero_bjorkeny`: on
`blobNu` the primary index is 1 (row 0 has `bjorkeny = 0`), and on
`blobNuNoPrimary` the extraction fails. -/
theorem neutrino_primary_lowest_nonzero_bjorkeny_witness :
    (∃ hp : 1 < blobNu.mcTracks.length,
        (blobNu.mcTracks.get ⟨1, hp⟩).bjorkeny ≠ 0 ∧
        ∀ j, (hj : j < blobNu.mcTracks.length) → j < 1 →
          (blobNu.mcTracks.get ⟨j, hj⟩).bjorkeny = 0) ∧
    get_tracks blobNuNoPrimary ("neutrino") [] none = none :=
  ⟨(neutrino_primary_lowest_nonzero_bjorkeny blobNu [] none).1 1 (by decide),
   (neutrino_primary_lowest_nonzero_bjorkeny blobNuNoPrimary [] none).2
     (by decide)⟩

/-- Counterexample to C4 as stated: with 4D mode DISABLED but the extra
dimension string `"xzt-c"`, `get_hits` still appends the sixth channel-id
column — Python parses the guard as
`(do4d[0] and do4d[1] == 'channel_id') or do4d[1] == 'xzt-c'` — so the
matrix does not have exactly 5 columns. -/
theorem hits_channel_column_counterexample :
    (get_hits blobMixed (fun t => t) false ⟨false⟩ (false, "xzt-c")).map
      List.length = [6] := by decide

/-- C4 (amended): `get_hits` appends the sixth `channel_id` column exactly
when 4D mode is enabled with extra dimension `"channel_id"`, or — regardless
of the 4D flag, by Python operator precedence — when the extra dimension is
`"xzt-c"`; otherwise every row has exactly the five columns
`[pos_x, pos_y, pos_z, time, triggered]`. -/
theorem hits_column_count (event_blob : EventBlob)
    (geo : HitTable → HitTable) (do_mc_hits : Bool) (data_cuts : DataCuts)
    (do4d : Bool × String) :
    (get_hits event_blob geo do_mc_hits data_cuts do4d).map List.length =
      List.replicate (get_hits event_blob geo do_mc_hits data_cuts do4d).length
        (if (do4d.1 = true ∧ do4d.2 = "channel_id") ∨ do4d.2 = "xzt-c"
         then 6 else 5) := by
  by_cases hc : (do4d.1 = true ∧ do4d.2 = "channel_id") ∨ do4d.2 = "xzt-c"
  · rw [if_pos hc]
    simp only [get_hits, if_pos hc]
    exact map_length_const _ _ 6 (fun x => rfl)
  · rw [if_neg hc]
    simp only [get_hits, if_neg hc]
    exact map_length_const _ _ 5 (fun x => rfl)

/-- Counterexample to C5 as stated: with a calibrated combined `Hits` table
but an uncalibrated simulated-hits table selected (`do_mc_hits = true`),
`get_hits` skips the calibration the claim requires — it differs from the
claim's reading `get_hits_claim`, which applies `geo` to the selected
table. -/
theorem hits_calibration_counterexample :
    get_hits blobMixed geoMark true ⟨false⟩ (false, "") ≠
      get_hits_claim blobMixed geoMark true ⟨false⟩ (false, "") := by decide

/-- C5 (amended): `get_hits` applies the calibration service exactly when
the combined `Hits` table lacks calibrated spatial coordinates — the check
inspects `event_blob['Hits']` even when the simulated-hits table is the
selected source — and otherwise the coordinates already present are used,
with no calibration attempted (the geometry service is not consulted). -/
theorem hits_calibration_on_hits_table (event_blob : EventBlob)
    (geo : HitTable → HitTable) (do_mc_hits : Bool) (data_cuts : DataCuts)
    (do4d : Bool × String) :
    get_hits event_blob geo do_mc_hits data_cuts do4d =
      assemble_matrix (apply_trigger_cut data_cuts
        (if event_blob.hits.hasPosX = true then select_hits event_blob do_mc_hits
         else geo (select_hits event_blob do_mc_hits))) do4d := by
  by_cases hpos : event_blob.hits.hasPosX = true
  · simp [get_hits, select_hits, apply_trigger_cut, assemble_matrix, hpos]
  · simp [get_hits, select_hits, apply_trigger_cut, assemble_matrix, hpos]

/-- C6: the muon branch of `get_tracks` cannot assemble any track vector:
its vertex weights expression indexes the string-keyed event blob with the
integer key 4 (`event_blob[4]['McTracks']`), which raises `KeyError` for
every muon event — here evaluated on a well-formed sentinel-plus-two-muons
bundle. -/
theorem muon_track_vector_keyerror :
    get_tracks blobMuon ("muon") [] none = none := by rfl

/-- C7: for every neutrino event whose primary track is found,
`get_tracks` returns a vector whose slot 13 is the mean time of the hits
with triggered flag 1 minus the interaction time; with no triggered hit the
extraction completes and that slot is the NaN sentinel instead of an
error. -/
theorem neutrino_time_residual (event_blob : EventBlob)
    (event_hits : List (List ℚ)) (prod_ident : Option ℚ) (p : Nat)
    (t : McTrack) (hp : get_primary_track_index event_blob = some p)
    (ht : event_blob.mcTracks.get? p = some t) :
    ∃ v, get_tracks event_blob ("neutrino") event_hits prod_ident = some v ∧
      (maskEqOne (matrixCol event_hits 3) (matrixCol event_hits 4) = [] →
        v.get? 13 = some PyFloat.nan) ∧
      (maskEqOne (matrixCol event_hits 3) (matrixCol event_hits 4) ≠ [] →
        v.get? 13 = some (PyFloat.val
          ((maskEqOne (matrixCol event_hits 3) (matrixCol event_hits 4)).sum /
            ((maskEqOne (matrixCol event_hits 3)
              (matrixCol event_hits 4)).length : ℚ) - t.time))) := by
  simp only [get_tracks, hp, ht]
  cases prod_ident with
  | none =>
    refine ⟨_, rfl, ?_, ?_⟩
    · intro hmask
      simp [get_time_residual_nu_interaction_mean_triggered_hits, hmask,
        npMean, pfSub]
    · intro hmask
      simp [get_time_residual_nu_interaction_mean_triggered_hits, hmask,
        npMean, pfSub]
  | some pid =>
    refine ⟨_, rfl, ?_, ?_⟩
    · intro hmask
      simp [get_time_residual_nu_interaction_mean_triggered_hits, hmask,
        npMean, pfSub]
    · intro hmask
      simp [get_time_residual_nu_interaction_mean_triggered_hits, hmask,
        npMean, pfSub]

/-- Closed instance of `neutrino_time_residual` on `blobNu` with a single
untriggered hit row: the extraction completes and slot 13 is NaN. -/
theorem neutrino_time_residual_witness :
    ∃ v, get_tracks blobNu ("neutrino") [[0, 0, 0, 50, 0]] none = some v ∧
      (maskEqOne (matrixCol [[0, 0, 0, 50, 0]] 3)
          (matrixCol [[0, 0, 0, 50, 0]] 4) = [] →
        v.get? 13 = some PyFloat.nan) ∧
      (maskEqOne (matrixCol [[0, 0, 0, 50, 0]] 3)
          (matrixCol [[0, 0, 0, 50, 0]] 4) ≠ [] →
        v.get? 13 = some (PyFloat.val
          ((maskEqOne (matrixCol [[0, 0, 0, 50, 0]] 3)
            (matrixCol [[0, 0, 0, 50, 0]] 4)).sum /
            ((maskEqOne (matrixCol [[0, 0, 0, 50, 0]] 3)
              (matrixCol [[0, 0, 0, 50, 0]] 4)).length : ℚ) - trkNu.time))) :=
  neutrino_time_residual blobNu [[0, 0, 0, 50, 0]] none 1 trkNu (by decide)
    (by decide)

/-- Counterexample to C8 as stated: on an empty file list the inventory
collector does fail — the integer division `total / len(files)` raises
`ZeroDivisionError` — rather than completing silently. -/
theorem empty_inventory_counterexample :
    get_number_of_evts_and_run_ids [] = none := by rfl

/-- C8 (amended): the mean-events-per-file computation fails, and only
fails, on an empty file list: collecting an empty directory raises a
`ZeroDivisionError` from the source instead of returning a value. -/
theorem empty_inventory_division_by_zero (list_of_files : List H5File) :
    get_number_of_evts_and_run_ids list_of_files = none ↔
      list_of_files = [] := by
  unfold get_number_of_evts_and_run_ids
  cases list_of_files <;> simp

/-- C10: when the triggered-only cut is enabled, every row of the matrix
returned by `get_hits` carries a truthy (nonzero) value in its triggered
column (index 4): the filter runs before assembly, so no untriggered row
survives into the output. -/
theorem triggered_cut_rows_triggered (event_blob : EventBlob)
    (geo : HitTable → HitTable) (do_mc_hits : Bool) (data_cuts : DataCuts)
    (do4d : Bool × String) (h : data_cuts.triggered = true) :
    ∀ r ∈ get_hits event_blob geo do_mc_hits data_cuts do4d,
      r.getD 4 0 ≠ 0 := by
  intro r hr
  simp only [get_hits, h, if_pos rfl] at hr
  by_cases hc : (do4d.1 = true ∧ do4d.2 = "channel_id") ∨ do4d.2 = "xzt-c"
  · rw [if_pos hc] at hr
    obtain ⟨x, hx, hrx⟩ := List.mem_map.mp hr
    have hxf := List.of_mem_filter hx
    rw [← hrx]
    simpa using hxf
  · rw [if_neg hc] at hr
    obtain ⟨x, hx, hrx⟩ := List.mem_map.mp hr
    have hxf := List.of_mem_filter hx
    rw [← hrx]
    simpa using hxf

/-- Closed instance of `triggered_cut_rows_triggered`: the surviving row of
the triggered-filtered example blob has a nonzero triggered entry. -/
theorem triggered_cut_rows_triggered_witness :
    ([(1 : ℚ), 2, 3, 10, 1] : List ℚ).getD 4 0 ≠ 0 :=
  triggered_cut_rows_triggered blobNu (fun t => t) false ⟨true⟩ (false, "")
    rfl [1, 2, 3, 10, 1] (by decide)

end OrcaSong
